import Mathlib

/-!
# Order/inventory consistency engine — shallow embedding

A shallow embedding of the order/inventory core of the boba-shop
point-of-sale backend (`backend/controllers/orderController.js`):
the database tables it touches, the `createOrder` transaction and the
`markOrderItemComplete` transaction, plus a small interleaving model of
the advisory-lock-protected `MAX + 1` identifier allocation.

Conventions:
* SQL integer columns are `Int` (inventory counts may go negative by
  design); identifiers are `Nat`.
* A transaction is a pure function `DB → ... → DB × Except E A`; on an
  error the returned state is the input state, mirroring the explicit
  `ROLLBACK` in the source (errors are raised before any insert, or the
  transaction is rolled back).
* The request field `orderItems` is `Option (List OrderItemReq)`: `none`
  models a missing (or non-array) JSON field, `some []` an empty array.
* `timeoforder` is kept as `Option Int` (`none` standing for the
  server-assigned current time `new Date()`); it plays no role in any
  transition.
-/

/-- A row of the `inventory` table: `ingredientID`, `ingredientCount`. -/
structure InventoryRow where
  ingredientID : Nat
  ingredientCount : Int
deriving DecidableEq, Repr

/-- A row of the `MenuItemIngredients` table (the recipe index). -/
structure MenuItemIngredientRow where
  menuItemID : Nat
  ingredientID : Nat
  ingredientQty : Int
deriving DecidableEq, Repr

/-- A row of the `orders` table. -/
structure OrderRow where
  orderid : Nat
  timeoforder : Option Int
  customerid : Option Int
  employeeid : Int
  totalcost : Int
  orderweek : Int
  is_complete : Bool
deriving DecidableEq, Repr

/-- A row of the `orderitems` table. -/
structure OrderItemRow where
  orderitemid : Nat
  orderid : Nat
  menuitemid : Nat
  quantity : Int
  is_complete : Bool
deriving DecidableEq, Repr

/-- The database state the order/inventory core reads and writes. -/
structure DB where
  orders : List OrderRow
  orderitems : List OrderItemRow
  inventory : List InventoryRow
  menuItemIngredients : List MenuItemIngredientRow
deriving DecidableEq, Repr

/-- One requested `(menuitemid, quantity)` pair of a create-order body. -/
structure OrderItemReq where
  menuitemid : Nat
  quantity : Int
deriving DecidableEq, Repr

/-- The body of `POST /api/orders`. -/
structure CreateOrderReq where
  timeoforder : Option Int
  customerid : Option Int
  employeeid : Int
  totalcost : Int
  orderweek : Int
  orderItems : Option (List OrderItemReq)
deriving DecidableEq, Repr

/-- Errors `createOrder` reports with HTTP 400 (rolled back). -/
inductive CreateError where
  | validationError (msg : String)
  | insufficientInventory (ingredientID : Nat)
deriving DecidableEq, Repr

/-- Error of `markOrderItemComplete` (rolled back). -/
inductive MarkError where
  | orderItemNotFound
deriving DecidableEq, Repr

/-- The join run by the creation-time sufficiency check:
`SELECT i.ingredientID, i.ingredientCount, mi.ingredientQty
 FROM inventory i INNER JOIN MenuItemIngredients mi
 ON i.ingredientID = mi.ingredientID WHERE mi.menuItemID = $1`. -/
def recipeJoin (db : DB) (menuItemID : Nat) :
    List (InventoryRow × MenuItemIngredientRow) :=
  db.inventory.flatMap fun i =>
    (db.menuItemIngredients.filter fun mi =>
      mi.ingredientID == i.ingredientID && mi.menuItemID == menuItemID).map
      fun mi => (i, mi)

/-- The inner validation loop of `createOrder` for one requested item:
the first joined row with `available < requiredPerDrink * quantity`
yields its ingredient id. -/
def itemInsufficiency (db : DB) (item : OrderItemReq) : Option Nat :=
  (recipeJoin db item.menuitemid).findSome? fun p =>
    if p.1.ingredientCount < p.2.ingredientQty * item.quantity then
      some p.1.ingredientID
    else
      none

/-- The whole validation loop of `createOrder`: the first insufficiency
found over the requested items, in request order. -/
def firstInsufficiency (db : DB) (items : List OrderItemReq) : Option Nat :=
  items.findSome? (itemInsufficiency db)

/-- `SELECT COALESCE(MAX(orderid), 0) FROM orders`. -/
def maxOrderId (orders : List OrderRow) : Nat :=
  (orders.map OrderRow.orderid).foldr max 0

/-- `SELECT COALESCE(MAX(orderitemid), 0) FROM orderitems`. -/
def maxOrderItemId (rows : List OrderItemRow) : Nat :=
  (rows.map OrderItemRow.orderitemid).foldr max 0

/-- The order-item insertion loop of `createOrder`: for each requested
item, allocate `MAX(orderitemid) + 1` against the current table and
append the new row with `is_complete = false`. -/
def insertOrderItems (orderId : Nat) (items : List OrderItemReq)
    (rows : List OrderItemRow) : List OrderItemRow :=
  items.foldl
    (fun rows item =>
      rows ++ [⟨maxOrderItemId rows + 1, orderId, item.menuitemid,
               item.quantity, false⟩])
    rows

/-- `createOrder` (`POST /api/orders`): validate the item list, run the
per-item sufficiency check, allocate `MAX(orderid) + 1`, insert the
order row (incomplete) and its item rows (incomplete).  Inventory is
not touched at creation time.  On an error the returned state is the
input state (`ROLLBACK`, or rejection before any write).
`customerid || null` maps the JS-falsy `0` to `null`. -/
def createOrder (db : DB) (req : CreateOrderReq) :
    DB × Except CreateError OrderRow :=
  match req.orderItems with
  | none => (db, .error (.validationError "Order must contain at least one item"))
  | some items =>
    if items.isEmpty then
      (db, .error (.validationError "Order must contain at least one item"))
    else
      match firstInsufficiency db items with
      | some iid => (db, .error (.insufficientInventory iid))
      | none =>
        let orderId := maxOrderId db.orders + 1
        let newOrder : OrderRow :=
          ⟨orderId, req.timeoforder,
           req.customerid.bind (fun v => if v = 0 then none else some v),
           req.employeeid, req.totalcost, req.orderweek, false⟩
        ({ db with
            orders := db.orders ++ [newOrder]
            orderitems := insertOrderItems orderId items db.orderitems },
         .ok newOrder)

/-- `SELECT ... FROM orderitems WHERE orderitemid = $1` (first row). -/
def findOrderItem (db : DB) (orderItemId : Nat) : Option OrderItemRow :=
  db.orderitems.find? fun r => r.orderitemid == orderItemId

/-- `isComplete !== false`: the desired flag defaults to `true` when the
body field is absent. -/
def willBeOf (isComplete : Option Bool) : Bool :=
  isComplete != some false

/-- `UPDATE orderitems SET is_complete = $1 WHERE orderitemid = $2`. -/
def updateItemFlag (rows : List OrderItemRow) (orderItemId : Nat)
    (b : Bool) : List OrderItemRow :=
  rows.map fun r =>
    if r.orderitemid == orderItemId then { r with is_complete := b } else r

/-- `SELECT ingredientid, ingredientqty FROM menuitemingredients
WHERE menuitemid = $1`. -/
def menuIngredients (db : DB) (menuitemid : Nat) :
    List MenuItemIngredientRow :=
  db.menuItemIngredients.filter fun r => r.menuItemID == menuitemid

/-- The debit loop of `markOrderItemComplete`: for each recipe row,
`UPDATE inventory SET ingredientcount = ingredientcount - qty * quantity
WHERE ingredientid = ...`.  No floor check. -/
def debitIngredients (inv : List InventoryRow)
    (rows : List MenuItemIngredientRow) (quantity : Int) :
    List InventoryRow :=
  rows.foldl
    (fun inv row =>
      inv.map fun i =>
        if i.ingredientID == row.ingredientID then
          { i with ingredientCount := i.ingredientCount - row.ingredientQty * quantity }
        else i)
    inv

/-- The restore loop of `markOrderItemComplete`: for each recipe row,
`UPDATE inventory SET ingredientcount = ingredientcount + qty * quantity
WHERE ingredientid = ...`. -/
def creditIngredients (inv : List InventoryRow)
    (rows : List MenuItemIngredientRow) (quantity : Int) :
    List InventoryRow :=
  rows.foldl
    (fun inv row =>
      inv.map fun i =>
        if i.ingredientID == row.ingredientID then
          { i with ingredientCount := i.ingredientCount + row.ingredientQty * quantity }
        else i)
    inv

/-- The order lines of one order:
`SELECT ... FROM orderitems WHERE orderid = $1`. -/
def orderLines (rows : List OrderItemRow) (orderId : Nat) :
    List OrderItemRow :=
  rows.filter fun r => r.orderid == orderId

/-- The aggregate recomputation at the end of `markOrderItemComplete`:
count the order's lines and its completed lines, then
`UPDATE orders SET is_complete = (completed = total) WHERE orderid = $1`
(the source writes `true` when equal, `false` otherwise). -/
def recomputeOrderFlag (rows : List OrderItemRow) (orders : List OrderRow)
    (orderId : Nat) : List OrderRow :=
  let lines := orderLines rows orderId
  let total := lines.length
  let completed := (lines.filter fun r => r.is_complete).length
  orders.map fun o =>
    if o.orderid == orderId then { o with is_complete := completed == total }
    else o

/-- `markOrderItemComplete` (`PATCH /api/orders/items/:id/complete`):
load the line (404 when absent), persist the desired flag, adjust
inventory only on an actual incomplete-to-complete transition (debit)
or complete-to-incomplete transition (credit), then recompute the
parent order's aggregate flag unconditionally. -/
def markOrderItemComplete (db : DB) (orderItemId : Nat)
    (isComplete : Option Bool) : DB × Except MarkError OrderItemRow :=
  match findOrderItem db orderItemId with
  | none => (db, .error .orderItemNotFound)
  | some orderItem =>
    let wasComplete := orderItem.is_complete
    let willBeComplete := willBeOf isComplete
    let orderitems := updateItemFlag db.orderitems orderItemId willBeComplete
    let inventory :=
      if willBeComplete && !wasComplete then
        debitIngredients db.inventory (menuIngredients db orderItem.menuitemid)
          orderItem.quantity
      else if !willBeComplete && wasComplete then
        creditIngredients db.inventory (menuIngredients db orderItem.menuitemid)
          orderItem.quantity
      else
        db.inventory
    let orders := recomputeOrderFlag orderitems db.orders orderItem.orderid
    ({ db with orders := orders, orderitems := orderitems, inventory := inventory },
     .ok { orderItem with is_complete := willBeComplete })

/-- The state reached by one completion call (an error rolls back). -/
def applyMark (db : DB) (op : Nat × Option Bool) : DB :=
  (markOrderItemComplete db op.1 op.2).1

/-- The state reached by a sequence of completion calls. -/
def applyMarks (db : DB) (ops : List (Nat × Option Bool)) : DB :=
  ops.foldl applyMark db

/-- The stock requirement of one order line for one ingredient: the sum
of `ingredientQty * quantity` over the recipe rows of the line's menu
item that name the ingredient (the amount the completion transaction
debits for that ingredient). -/
def recipeUsage (mii : List MenuItemIngredientRow) (iid : Nat)
    (it : OrderItemRow) : Int :=
  (((mii.filter fun r => r.menuItemID == it.menuitemid).filter
      fun r => r.ingredientID == iid).map
    fun r => r.ingredientQty * it.quantity).sum

/-- Total requirement for one ingredient over the currently completed
order lines. -/
def completedUsage (mii : List MenuItemIngredientRow)
    (items : List OrderItemRow) (iid : Nat) : Int :=
  ((items.filter fun r => r.is_complete).map (recipeUsage mii iid)).sum

/-- Order-line identifiers are unique (the `orderitemid` primary key). -/
def itemIdsNodup (db : DB) : Prop :=
  (db.orderitems.map OrderItemRow.orderitemid).Nodup

/-- Every order line references an existing order (the foreign key). -/
def itemsReferenceOrders (db : DB) : Prop :=
  ∀ it ∈ db.orderitems, ∃ o ∈ db.orders, o.orderid = it.orderid

/-- The derived-flag invariant: an order's aggregate completion flag is
true iff the order has at least one line and all of its lines are
complete. -/
def orderFlagDerived (db : DB) : Prop :=
  ∀ o ∈ db.orders,
    o.is_complete =
      (!(orderLines db.orderitems o.orderid).isEmpty &&
        (orderLines db.orderitems o.orderid).all OrderItemRow.is_complete)

/-- The well-formedness invariant maintained by the two transactions. -/
def wellFormed (db : DB) : Prop :=
  itemIdsNodup db ∧ itemsReferenceOrders db ∧ orderFlagDerived db

/-! ### Concrete states used by counterexamples and witnesses -/

/-- Ingredient 1 has 10 in stock; menu item 7 needs 6 of it per unit. -/
def exDbShared : DB := ⟨[], [], [⟨1, 10⟩], [⟨7, 1, 6⟩]⟩

/-- Two order lines of one unit of menu item 7 each: each line alone
needs 6 ≤ 10, together they need 12 > 10. -/
def exReqShared : CreateOrderReq := ⟨some 0, none, 9, 12, 40, some [⟨7, 1⟩, ⟨7, 1⟩]⟩

/-- Scenario B: ingredient 3 ("Milk") has count 3, menu item 8 needs 5
of it per unit. -/
def exDbMilk : DB := ⟨[], [], [⟨3, 3⟩], [⟨8, 3, 5⟩]⟩

/-- Scenario B request: one unit of menu item 8. -/
def exReqMilk : CreateOrderReq := ⟨none, none, 1, 5, 40, some [⟨8, 1⟩]⟩

/-- Scenario A: ingredient 1 ("Boba") has count 100, menu item 7 needs
5 of it per unit. -/
def exDbBoba : DB := ⟨[], [], [⟨1, 100⟩], [⟨7, 1, 5⟩]⟩

/-- Scenario A request: ten units of menu item 7. -/
def exReqBoba : CreateOrderReq := ⟨some 0, none, 9, 50, 40, some [⟨7, 10⟩]⟩

/-- An incomplete line of one unit of menu item 7 against stock 0 of
ingredient 1 (recipe: 5 per unit). -/
def exDbEmptyStock : DB := ⟨[], [⟨1, 1, 7, 1, false⟩], [⟨1, 0⟩], [⟨7, 1, 5⟩]⟩

/-- An already-complete line, stock 40. -/
def exDbDoneLine : DB := ⟨[], [⟨1, 1, 7, 1, true⟩], [⟨1, 40⟩], [⟨7, 1, 5⟩]⟩

/-- An order line with its completion flag cleared (the completion flag
is the only field the completion transaction mutates). -/
def stripFlag (r : OrderItemRow) : OrderItemRow :=
  { r with is_complete := false }

/-- The bookkeeping relation between a starting state and a state
reached by completion transitions: recipes are unchanged, order lines
are unchanged except for their flags, and every inventory row has been
debited by exactly the requirement of the currently-completed lines. -/
def tracks (db0 db : DB) : Prop :=
  db.menuItemIngredients = db0.menuItemIngredients ∧
  db.orderitems.map stripFlag = db0.orderitems.map stripFlag ∧
  db.inventory = db0.inventory.map fun i =>
    { i with ingredientCount := i.ingredientCount -
        completedUsage db0.menuItemIngredients db.orderitems i.ingredientID }

/-- An order with two incomplete lines of one unit of menu item 7 each;
ingredient 1 at 10, recipe 6 per unit. -/
def exDbTwoLines : DB :=
  ⟨[⟨1, some 0, none, 9, 12, 40, false⟩],
   [⟨1, 1, 7, 1, false⟩, ⟨2, 1, 7, 1, false⟩],
   [⟨1, 10⟩], [⟨7, 1, 6⟩]⟩

/-! ### Identifier allocation under the transaction-scoped advisory lock

`createOrder` allocates identifiers with `SELECT pg_advisory_xact_lock(n)`
followed by `SELECT COALESCE(MAX(id), 0) + 1`.  The model below runs two
concurrent order-creation transactions against an empty `orders` table:
each thread acquires the lock (blocking while the other holds it), reads
the maximum of the committed rows (READ COMMITTED: a statement sees only
committed data), buffers its insert, and on commit publishes the row and
releases the transaction-scoped lock. -/

/-- `pg_advisory_xact_lock(1)`: the order-id allocation lock key. -/
def orderIdLockKey : Nat := 1

/-- `pg_advisory_xact_lock(2)`: the order-item-id allocation lock key. -/
def orderItemIdLockKey : Nat := 2

/-- Program counter of one allocating transaction. -/
inductive AllocPC where
  | ready
  | locked
  | computed
  | inserted
  | done
deriving DecidableEq, Repr

/-- One allocating thread: its program counter and the id it computed
(0 before the read). -/
structure AllocThread where
  pc : AllocPC
  id : Nat
deriving DecidableEq, Repr

/-- Which thread holds the advisory lock. -/
inductive ThreadTag where
  | A
  | B
deriving DecidableEq, Repr

/-- Shared state: both threads, the advisory lock, and the committed
`orderid` column. -/
structure AllocSystem where
  thA : AllocThread
  thB : AllocThread
  lock : Option ThreadTag
  committed : List Nat
deriving DecidableEq, Repr

/-- The steps one thread can take: acquire the free lock; run
`SELECT COALESCE(MAX(orderid), 0) + 1` over committed rows; run the
buffered `INSERT`; `COMMIT` (publish the row, release the xact lock). -/
def threadSteps (t : AllocThread) (lock : Option ThreadTag)
    (tag : ThreadTag) (committed : List Nat) :
    List (AllocThread × Option ThreadTag × List Nat) :=
  match t.pc with
  | .ready =>
    if lock = none then [(⟨.locked, t.id⟩, some tag, committed)] else []
  | .locked => [(⟨.computed, committed.foldr max 0 + 1⟩, lock, committed)]
  | .computed => [(⟨.inserted, t.id⟩, lock, committed)]
  | .inserted => [(⟨.done, t.id⟩, none, committed ++ [t.id])]
  | .done => []

/-- All interleaved successor states. -/
def allocStep (s : AllocSystem) : List AllocSystem :=
  ((threadSteps s.thA s.lock .A s.committed).map fun r =>
    { s with thA := r.1, lock := r.2.1, committed := r.2.2 }) ++
  ((threadSteps s.thB s.lock .B s.committed).map fun r =>
    { s with thB := r.1, lock := r.2.1, committed := r.2.2 })

/-- Two fresh transactions against an empty orders table. -/
def allocInit : AllocSystem := ⟨⟨.ready, 0⟩, ⟨.ready, 0⟩, none, []⟩

/-- One breadth-first expansion of a state set. -/
def allocExpand (ss : List AllocSystem) : List AllocSystem :=
  (ss ++ ss.flatMap allocStep).dedup

/-- The states reachable from `allocInit` in at most `n` steps. -/
def allocReach : Nat → List AllocSystem
  | 0 => [allocInit]
  | n + 1 => allocExpand (allocReach n)

/-- Reachability from the initial state under the interleaving
semantics. -/
inductive AllocReaches : AllocSystem → Prop where
  | init : AllocReaches allocInit
  | step {s t : AllocSystem} : AllocReaches s → t ∈ allocStep s →
      AllocReaches t

/-! ### Characterization of the creation-time sufficiency check -/

lemma itemInsufficiency_isSome_iff (db : DB) (item : OrderItemReq) :
    (itemInsufficiency db item).isSome ↔
      ∃ p ∈ recipeJoin db item.menuitemid,
        p.1.ingredientCount < p.2.ingredientQty * item.quantity := by
  unfold itemInsufficiency
  rw [List.findSome?_isSome_iff]
  constructor
  · rintro ⟨p, hp, hs⟩
    refine ⟨p, hp, ?_⟩
    by_contra hlt
    simp [if_neg hlt] at hs
  · rintro ⟨p, hp, hlt⟩
    exact ⟨p, hp, by simp [if_pos hlt]⟩

lemma firstInsufficiency_isSome_iff (db : DB) (items : List OrderItemReq) :
    (firstInsufficiency db items).isSome ↔
      ∃ it ∈ items, ∃ p ∈ recipeJoin db it.menuitemid,
        p.1.ingredientCount < p.2.ingredientQty * it.quantity := by
  unfold firstInsufficiency
  rw [List.findSome?_isSome_iff]
  constructor
  · rintro ⟨it, hit, hs⟩
    exact ⟨it, hit, (itemInsufficiency_isSome_iff db it).mp hs⟩
  · rintro ⟨it, hit, hp⟩
    exact ⟨it, hit, (itemInsufficiency_isSome_iff db it).mpr hp⟩

lemma firstInsufficiency_some_names_offender (db : DB)
    (items : List OrderItemReq) (i : Nat)
    (h : firstInsufficiency db items = some i) :
    ∃ it ∈ items, ∃ p ∈ recipeJoin db it.menuitemid,
      p.1.ingredientID = i ∧
        p.1.ingredientCount < p.2.ingredientQty * it.quantity := by
  obtain ⟨it, hit, hsome⟩ := List.exists_of_findSome?_eq_some h
  obtain ⟨p, hp, hval⟩ := List.exists_of_findSome?_eq_some hsome
  refine ⟨it, hit, p, hp, ?_⟩
  by_cases hlt : p.1.ingredientCount < p.2.ingredientQty * it.quantity
  · rw [if_pos hlt] at hval
    exact ⟨(Option.some_inj.mp hval), hlt⟩
  · rw [if_neg hlt] at hval
    exact absurd hval (by simp)

/-- C1 (counterexample): two requested lines of one unit of menu item 7
each need 6 of ingredient 1; stock is 10, so the summed requirement
6 + 6 = 12 exceeds it, yet `createOrder` accepts the request — the
sufficiency check never aggregates requirements across order lines. -/
theorem c1_counterexample :
    itemInsufficiency exDbShared ⟨7, 1⟩ = none ∧
    (10 : Int) < 6 * 1 + 6 * 1 ∧
    (createOrder exDbShared exReqShared).2 =
      Except.ok ⟨1, some 0, none, 9, 12, 40, false⟩ := by
  refine ⟨rfl, by decide, rfl⟩

/-- C1 (amended): the creation-time sufficiency check is per order line:
creation reports `InsufficientInventoryError` exactly when some single
requested line has a joined inventory/recipe row whose available count
is below that line's own requirement (per-unit quantity times that
line's quantity); requirements are never summed across lines. -/
theorem c1_amended_per_line_check (db : DB) (req : CreateOrderReq)
    (items : List OrderItemReq)
    (h1 : req.orderItems = some items) (h2 : items.isEmpty = false) :
    (∃ i, (createOrder db req).2 =
        Except.error (CreateError.insufficientInventory i)) ↔
      ∃ it ∈ items, ∃ p ∈ recipeJoin db it.menuitemid,
        p.1.ingredientCount < p.2.ingredientQty * it.quantity := by
  rw [← firstInsufficiency_isSome_iff]
  unfold createOrder
  rw [h1]
  simp only [h2, Bool.false_eq_true, if_false]
  cases hfi : firstInsufficiency db items with
  | none => simp
  | some j => simp

/-- C1 (amended, witness). -/
theorem c1_amended_per_line_check_witness :
    exReqShared.orderItems = some [⟨7, 1⟩, ⟨7, 1⟩] ∧
    (([⟨7, 1⟩, ⟨7, 1⟩] : List OrderItemReq).isEmpty = false) ∧
    ((∃ i, (createOrder exDbShared exReqShared).2 =
        Except.error (CreateError.insufficientInventory i)) ↔
      ∃ it ∈ ([⟨7, 1⟩, ⟨7, 1⟩] : List OrderItemReq),
        ∃ p ∈ recipeJoin exDbShared it.menuitemid,
          p.1.ingredientCount < p.2.ingredientQty * it.quantity) :=
  ⟨rfl, rfl, c1_amended_per_line_check exDbShared exReqShared _ rfl rfl⟩

/-- C4: when the sufficiency check fails, the whole transaction is
rolled back — the returned state is the input state (no order row, no
order-line rows, no inventory change) — and the error names an
ingredient whose available count is below some single line's
requirement. -/
theorem c4_insufficiency_rolls_back (db : DB) (req : CreateOrderReq)
    (items : List OrderItemReq) (i : Nat)
    (h1 : req.orderItems = some items) (h2 : items.isEmpty = false)
    (h3 : firstInsufficiency db items = some i) :
    createOrder db req =
      (db, Except.error (CreateError.insufficientInventory i)) ∧
    ∃ it ∈ items, ∃ p ∈ recipeJoin db it.menuitemid,
      p.1.ingredientID = i ∧
        p.1.ingredientCount < p.2.ingredientQty * it.quantity := by
  constructor
  · unfold createOrder
    rw [h1]
    simp only [h2, Bool.false_eq_true, if_false, h3]
  · exact firstInsufficiency_some_names_offender db items i h3

/-- C4 (witness): Scenario B — "Milk" (ingredient 3) has count 3, the
recipe needs 5 per unit, one unit is requested. -/
theorem c4_insufficiency_rolls_back_witness :
    exReqMilk.orderItems = some [⟨8, 1⟩] ∧
    (([⟨8, 1⟩] : List OrderItemReq).isEmpty = false) ∧
    firstInsufficiency exDbMilk [⟨8, 1⟩] = some 3 ∧
    (createOrder exDbMilk exReqMilk =
      (exDbMilk, Except.error (CreateError.insufficientInventory 3)) ∧
    ∃ it ∈ ([⟨8, 1⟩] : List OrderItemReq),
      ∃ p ∈ recipeJoin exDbMilk it.menuitemid,
        p.1.ingredientID = 3 ∧
          p.1.ingredientCount < p.2.ingredientQty * it.quantity) :=
  ⟨rfl, rfl, rfl, c4_insufficiency_rolls_back exDbMilk exReqMilk _ 3 rfl rfl rfl⟩

/-- C8 (counterexample): an item-less request is rejected before any
store mutation, but the message the code produces is
`"Order must contain at least one item"` (capital `O`), not the
claimed `"order must contain at least one item"`. -/
theorem c8_counterexample :
    createOrder exDbShared ⟨none, none, 1, 0, 40, none⟩ =
      (exDbShared,
        Except.error
          (CreateError.validationError "Order must contain at least one item")) ∧
    "Order must contain at least one item" ≠
      "order must contain at least one item" :=
  ⟨rfl, by decide⟩

/-- C8 (amended): for every order-creation request whose item list is
missing or empty, the operation returns a validation error with message
"Order must contain at least one item" and performs no store mutation:
the returned state is the input state. -/
theorem c8_amended_empty_order_rejected (db : DB) (req : CreateOrderReq)
    (h : req.orderItems = none ∨ req.orderItems = some []) :
    createOrder db req =
      (db,
        Except.error
          (CreateError.validationError "Order must contain at least one item")) := by
  rcases h with h | h <;> simp [createOrder, h]

/-- C8 (amended, witness): both the missing-list and the empty-list
requests. -/
theorem c8_amended_empty_order_rejected_witness :
    ((⟨none, none, 1, 0, 40, none⟩ : CreateOrderReq).orderItems = none ∨
      (⟨none, none, 1, 0, 40, none⟩ : CreateOrderReq).orderItems = some []) ∧
    createOrder exDbMilk ⟨none, none, 1, 0, 40, none⟩ =
      (exDbMilk,
        Except.error
          (CreateError.validationError "Order must contain at least one item")) ∧
    createOrder exDbMilk ⟨none, none, 1, 0, 40, some []⟩ =
      (exDbMilk,
        Except.error
          (CreateError.validationError "Order must contain at least one item")) :=
  ⟨Or.inl rfl,
   c8_amended_empty_order_rejected exDbMilk _ (Or.inl rfl),
   c8_amended_empty_order_rejected exDbMilk _ (Or.inr rfl)⟩

/-- Each row produced by the order-item insertion loop is either an old
row or a new row of the created order with completion flag false. -/
lemma mem_insertOrderItems (orderId : Nat) (items : List OrderItemReq) :
    ∀ rows, ∀ it ∈ insertOrderItems orderId items rows,
      it ∈ rows ∨ (it.orderid = orderId ∧ it.is_complete = false) := by
  induction items with
  | nil => intro rows it h; exact Or.inl h
  | cons a as ih =>
    intro rows it h
    have hstep : insertOrderItems orderId (a :: as) rows =
        insertOrderItems orderId as
          (rows ++ [⟨maxOrderItemId rows + 1, orderId, a.menuitemid,
            a.quantity, false⟩]) := rfl
    rw [hstep] at h
    have h2 := ih (rows ++ [⟨maxOrderItemId rows + 1, orderId, a.menuitemid,
      a.quantity, false⟩]) it h
    rcases h2 with h2 | h2
    · rcases List.mem_append.mp h2 with h3 | h3
      · exact Or.inl h3
      · rcases List.mem_singleton.mp h3 with rfl
        exact Or.inr ⟨rfl, rfl⟩
    · exact Or.inr h2

/-- C5: a successful order creation does not change any inventory
count (or the recipe index); the order row is persisted with aggregate
flag false, and every order-line row it adds has completion flag false.
Stock is only moved by the completion transaction. -/
theorem c5_creation_defers_inventory (db : DB) (req : CreateOrderReq)
    (db' : DB) (o : OrderRow)
    (h : createOrder db req = (db', Except.ok o)) :
    db'.inventory = db.inventory ∧
    db'.menuItemIngredients = db.menuItemIngredients ∧
    o.is_complete = false ∧
    db'.orders = db.orders ++ [o] ∧
    ∀ it ∈ db'.orderitems,
      it ∈ db.orderitems ∨ (it.orderid = o.orderid ∧ it.is_complete = false) := by
  cases hoi : req.orderItems with
  | none => simp [createOrder, hoi] at h
  | some items =>
    cases he : items.isEmpty with
    | true => simp [createOrder, hoi, he] at h
    | false =>
      cases hfi : firstInsufficiency db items with
      | some i => simp [createOrder, hoi, he, hfi] at h
      | none =>
        simp only [createOrder, hoi, he, hfi, Bool.false_eq_true, if_false,
          Prod.mk.injEq, Except.ok.injEq] at h
        obtain ⟨hdb, ho⟩ := h
        subst hdb
        refine ⟨rfl, rfl, by rw [← ho], by rw [← ho], ?_⟩
        intro it hit
        have := mem_insertOrderItems (maxOrderId db.orders + 1) items
          db.orderitems it hit
        rw [← ho]
        exact this

/-- C5 (witness): Scenario A — creating an order for 10 units of a menu
item that needs 5 "Boba" per unit leaves "Boba" at 100; completing the
line afterwards drops it to 50. -/
theorem c5_creation_defers_inventory_witness :
    createOrder exDbBoba exReqBoba =
      ((createOrder exDbBoba exReqBoba).1, Except.ok ⟨1, some 0, none, 9, 50, 40, false⟩) ∧
    ((createOrder exDbBoba exReqBoba).1.inventory = exDbBoba.inventory ∧
      (createOrder exDbBoba exReqBoba).1.menuItemIngredients = exDbBoba.menuItemIngredients ∧
      (⟨1, some 0, none, 9, 50, 40, false⟩ : OrderRow).is_complete = false ∧
      (createOrder exDbBoba exReqBoba).1.orders =
        exDbBoba.orders ++ [⟨1, some 0, none, 9, 50, 40, false⟩] ∧
      ∀ it ∈ (createOrder exDbBoba exReqBoba).1.orderitems,
        it ∈ exDbBoba.orderitems ∨
          (it.orderid = (⟨1, some 0, none, 9, 50, 40, false⟩ : OrderRow).orderid ∧
            it.is_complete = false)) ∧
    exDbBoba.inventory = [⟨1, 100⟩] ∧
    (applyMark (createOrder exDbBoba exReqBoba).1 (1, some true)).inventory = [⟨1, 50⟩] :=
  ⟨rfl, c5_creation_defers_inventory exDbBoba exReqBoba _ _ rfl, rfl, rfl⟩

/-- C10: the sufficiency check is vacuous for menu items whose recipe
join with inventory is empty (no recipe rows, or recipe rows whose
ingredients have no inventory row): a non-empty request made solely of
such items is accepted regardless of stock, and the order and its lines
are created. -/
theorem c10_dangling_recipe_vacuous (db : DB) (req : CreateOrderReq)
    (items : List OrderItemReq)
    (h1 : req.orderItems = some items) (h2 : items.isEmpty = false)
    (h3 : ∀ it ∈ items, recipeJoin db it.menuitemid = []) :
    ∃ o, createOrder db req =
      ({ db with
          orders := db.orders ++ [o]
          orderitems := insertOrderItems (maxOrderId db.orders + 1) items
            db.orderitems },
        Except.ok o) := by
  have hfi : firstInsufficiency db items = none := by
    unfold firstInsufficiency
    rw [List.findSome?_eq_none_iff]
    intro it hit
    unfold itemInsufficiency
    rw [h3 it hit]
    rfl
  refine ⟨⟨maxOrderId db.orders + 1, req.timeoforder,
    req.customerid.bind (fun v => if v = 0 then none else some v),
    req.employeeid, req.totalcost, req.orderweek, false⟩, ?_⟩
  unfold createOrder
  rw [h1]
  simp only [h2, Bool.false_eq_true, if_false, hfi]

/-- C10 (witness): menu item 5's only recipe row names ingredient 99,
which has no inventory row; menu item 6 has no recipe rows at all; the
only stocked ingredient is at count 0, yet the order is created. -/
theorem c10_dangling_recipe_vacuous_witness :
    ((⟨none, none, 2, 0, 40, some [⟨5, 3⟩, ⟨6, 2⟩]⟩ : CreateOrderReq).orderItems
      = some [⟨5, 3⟩, ⟨6, 2⟩]) ∧
    (([⟨5, 3⟩, ⟨6, 2⟩] : List OrderItemReq).isEmpty = false) ∧
    (∀ it ∈ ([⟨5, 3⟩, ⟨6, 2⟩] : List OrderItemReq),
      recipeJoin ⟨[], [], [⟨1, 0⟩], [⟨5, 99, 4⟩]⟩ it.menuitemid = []) ∧
    ∃ o, createOrder ⟨[], [], [⟨1, 0⟩], [⟨5, 99, 4⟩]⟩
        ⟨none, none, 2, 0, 40, some [⟨5, 3⟩, ⟨6, 2⟩]⟩ =
      ({ (⟨[], [], [⟨1, 0⟩], [⟨5, 99, 4⟩]⟩ : DB) with
          orders := (⟨[], [], [⟨1, 0⟩], [⟨5, 99, 4⟩]⟩ : DB).orders ++ [o]
          orderitems := insertOrderItems
            (maxOrderId (⟨[], [], [⟨1, 0⟩], [⟨5, 99, 4⟩]⟩ : DB).orders + 1)
            [⟨5, 3⟩, ⟨6, 2⟩]
            (⟨[], [], [⟨1, 0⟩], [⟨5, 99, 4⟩]⟩ : DB).orderitems },
        Except.ok o) :=
  ⟨rfl, rfl, by decide,
   c10_dangling_recipe_vacuous ⟨[], [], [⟨1, 0⟩], [⟨5, 99, 4⟩]⟩ _ _ rfl rfl
     (by decide)⟩

/-- C7: the completion transaction performs no stock-floor check — for
every existing order line, marking it complete succeeds, and the
resulting inventory is the unconditional debit of the line's recipe
(which may drive counts negative). -/
theorem c7_no_floor_check (db : DB) (k : Nat) (it : OrderItemRow)
    (h : findOrderItem db k = some it) :
    (markOrderItemComplete db k (some true)).2 =
      Except.ok { it with is_complete := true } ∧
    (markOrderItemComplete db k (some true)).1.inventory =
      (if it.is_complete then db.inventory
       else debitIngredients db.inventory (menuIngredients db it.menuitemid)
         it.quantity) := by
  cases hw : it.is_complete <;>
    simp [markOrderItemComplete, h, willBeOf, hw]

/-- C7 (witness): completing the line against stock 0 succeeds and
leaves ingredient 1 at −5. -/
theorem c7_no_floor_check_witness :
    findOrderItem exDbEmptyStock 1 = some ⟨1, 1, 7, 1, false⟩ ∧
    ((markOrderItemComplete exDbEmptyStock 1 (some true)).2 =
        Except.ok ⟨1, 1, 7, 1, true⟩ ∧
      (markOrderItemComplete exDbEmptyStock 1 (some true)).1.inventory =
        (if (⟨1, 1, 7, 1, false⟩ : OrderItemRow).is_complete then
          exDbEmptyStock.inventory
         else debitIngredients exDbEmptyStock.inventory
           (menuIngredients exDbEmptyStock 7) 1)) ∧
    (markOrderItemComplete exDbEmptyStock 1 (some true)).1.inventory =
      [⟨1, -5⟩] :=
  ⟨rfl, c7_no_floor_check exDbEmptyStock 1 _ rfl, rfl⟩

/-- A completion call whose target flag equals the line's current flag
leaves inventory untouched. -/
lemma mark_same_flag_inventory (db : DB) (k : Nat) (c : Option Bool)
    (it : OrderItemRow) (h : findOrderItem db k = some it)
    (hflag : it.is_complete = willBeOf c) :
    (markOrderItemComplete db k c).1.inventory = db.inventory := by
  simp [markOrderItemComplete, h, hflag]

/-- After a completion call, looking the line up again finds it with
the persisted target flag. -/
lemma findOrderItem_after_mark (db : DB) (k : Nat) (c : Option Bool)
    (it : OrderItemRow) (h : findOrderItem db k = some it) :
    findOrderItem (applyMark db (k, c)) k =
      some { it with is_complete := willBeOf c } := by
  have horders : (applyMark db (k, c)).orderitems =
      updateItemFlag db.orderitems k (willBeOf c) := by
    simp [applyMark, markOrderItemComplete, h]
  unfold findOrderItem at h ⊢
  rw [horders]
  unfold updateItemFlag
  rw [List.find?_map]
  have hpf : ((fun r : OrderItemRow => r.orderitemid == k) ∘ fun r =>
      if r.orderitemid == k then { r with is_complete := willBeOf c } else r) =
      fun r : OrderItemRow => r.orderitemid == k := by
    funext r
    simp only [Function.comp_apply]
    by_cases hr : (r.orderitemid == k) = true
    · rw [if_pos hr]
    · rw [if_neg hr]
  have hit : (it.orderitemid == k) = true :=
    List.find?_some (p := fun r : OrderItemRow => r.orderitemid == k) h
  rw [hpf, h, Option.map_some', if_pos hit]

/-- C6: a completion call whose target flag equals the line's current
flag persists the write but changes no inventory count; and repeating
the same call a second time never moves inventory again — adjustment
fires only on an actual transition. -/
theorem c6_same_target_no_inventory_delta (db : DB) (k : Nat)
    (c : Option Bool) (it : OrderItemRow)
    (h : findOrderItem db k = some it)
    (hflag : it.is_complete = willBeOf c) :
    (markOrderItemComplete db k c).1.inventory = db.inventory ∧
    (applyMark (applyMark db (k, c)) (k, c)).inventory =
      (applyMark db (k, c)).inventory := by
  refine ⟨mark_same_flag_inventory db k c it h hflag, ?_⟩
  exact mark_same_flag_inventory _ k c _ (findOrderItem_after_mark db k c it h) rfl

/-- C6 (witness): re-marking an already-complete line moves no stock,
twice. -/
theorem c6_same_target_no_inventory_delta_witness :
    findOrderItem exDbDoneLine 1 = some ⟨1, 1, 7, 1, true⟩ ∧
    ((⟨1, 1, 7, 1, true⟩ : OrderItemRow).is_complete = willBeOf (some true)) ∧
    ((markOrderItemComplete exDbDoneLine 1 (some true)).1.inventory =
        exDbDoneLine.inventory ∧
      (applyMark (applyMark exDbDoneLine (1, some true)) (1, some true)).inventory =
        (applyMark exDbDoneLine (1, some true)).inventory) :=
  ⟨rfl, rfl,
   c6_same_target_no_inventory_delta exDbDoneLine 1 (some true) _ rfl rfl⟩

lemma debitIngredients_eq_map (q : Int) :
    ∀ (rows : List MenuItemIngredientRow) (inv : List InventoryRow),
      debitIngredients inv rows q =
        inv.map fun i =>
          { i with ingredientCount := i.ingredientCount -
              ((rows.filter fun r => r.ingredientID == i.ingredientID).map
                fun r => r.ingredientQty * q).sum } := by
  intro rows
  induction rows with
  | nil =>
    intro inv
    symm
    have hpt : ∀ i ∈ inv,
        ({ i with ingredientCount := i.ingredientCount -
            ((([] : List MenuItemIngredientRow).filter
                (fun r => r.ingredientID == i.ingredientID)).map
              (fun r => r.ingredientQty * q)).sum } : InventoryRow) = id i := by
      intro i _
      simp
    rw [List.map_congr_left hpt, List.map_id]
    rfl
  | cons r rs ih =>
    intro inv
    have hstep : debitIngredients inv (r :: rs) q =
        debitIngredients (inv.map fun i =>
          if i.ingredientID == r.ingredientID then
            { i with ingredientCount := i.ingredientCount - r.ingredientQty * q }
          else i) rs q := rfl
    rw [hstep, ih, List.map_map]
    apply List.map_congr_left
    intro i _
    simp only [Function.comp_apply]
    by_cases hid : (i.ingredientID == r.ingredientID) = true
    · have hid2 : (r.ingredientID == i.ingredientID) = true := by
        rw [beq_iff_eq] at hid ⊢
        omega
      rw [if_pos hid, List.filter_cons, if_pos hid2, List.map_cons,
        List.sum_cons]
      simp only [InventoryRow.mk.injEq]
      exact ⟨trivial, by omega⟩
    · have hid2 : ¬ (r.ingredientID == i.ingredientID) = true := by
        rw [beq_iff_eq] at hid ⊢
        omega
      rw [if_neg hid, List.filter_cons, if_neg hid2]

lemma creditIngredients_eq_map (q : Int) :
    ∀ (rows : List MenuItemIngredientRow) (inv : List InventoryRow),
      creditIngredients inv rows q =
        inv.map fun i =>
          { i with ingredientCount := i.ingredientCount +
              ((rows.filter fun r => r.ingredientID == i.ingredientID).map
                fun r => r.ingredientQty * q).sum } := by
  intro rows
  induction rows with
  | nil =>
    intro inv
    symm
    have hpt : ∀ i ∈ inv,
        ({ i with ingredientCount := i.ingredientCount +
            ((([] : List MenuItemIngredientRow).filter
                (fun r => r.ingredientID == i.ingredientID)).map
              (fun r => r.ingredientQty * q)).sum } : InventoryRow) = id i := by
      intro i _
      simp
    rw [List.map_congr_left hpt, List.map_id]
    rfl
  | cons r rs ih =>
    intro inv
    have hstep : creditIngredients inv (r :: rs) q =
        creditIngredients (inv.map fun i =>
          if i.ingredientID == r.ingredientID then
            { i with ingredientCount := i.ingredientCount + r.ingredientQty * q }
          else i) rs q := rfl
    rw [hstep, ih, List.map_map]
    apply List.map_congr_left
    intro i _
    simp only [Function.comp_apply]
    by_cases hid : (i.ingredientID == r.ingredientID) = true
    · have hid2 : (r.ingredientID == i.ingredientID) = true := by
        rw [beq_iff_eq] at hid ⊢
        omega
      rw [if_pos hid, List.filter_cons, if_pos hid2, List.map_cons,
        List.sum_cons]
      simp only [InventoryRow.mk.injEq]
      exact ⟨trivial, by omega⟩
    · have hid2 : ¬ (r.ingredientID == i.ingredientID) = true := by
        rw [beq_iff_eq] at hid ⊢
        omega
      rw [if_neg hid, List.filter_cons, if_neg hid2]

lemma completedUsage_cons (mii : List MenuItemIngredientRow)
    (x : OrderItemRow) (l : List OrderItemRow) (iid : Nat) :
    completedUsage mii (x :: l) iid =
      (if x.is_complete then recipeUsage mii iid x else 0) +
        completedUsage mii l iid := by
  unfold completedUsage
  rw [List.filter_cons]
  by_cases hx : x.is_complete = true
  · rw [if_pos hx, if_pos hx, List.map_cons, List.sum_cons]
  · rw [if_neg hx, if_neg hx, zero_add]

lemma updateItemFlag_id_of_absent (k : Nat) (b : Bool) :
    ∀ rows : List OrderItemRow,
      (∀ r ∈ rows, ¬ (r.orderitemid == k) = true) →
      updateItemFlag rows k b = rows := by
  intro rows h
  unfold updateItemFlag
  have hpt : ∀ r ∈ rows,
      (if r.orderitemid == k then { r with is_complete := b } else r) = id r := by
    intro r hr
    rw [if_neg (h r hr)]
    rfl
  rw [List.map_congr_left hpt, List.map_id]

lemma recipeUsage_flag (mii : List MenuItemIngredientRow) (iid : Nat)
    (r : OrderItemRow) (b : Bool) :
    recipeUsage mii iid { r with is_complete := b } = recipeUsage mii iid r :=
  rfl

lemma completedUsage_updateItemFlag (mii : List MenuItemIngredientRow)
    (k : Nat) (b : Bool) (iid : Nat) (it : OrderItemRow) :
    ∀ rows : List OrderItemRow,
      (rows.map OrderItemRow.orderitemid).Nodup →
      rows.find? (fun r => r.orderitemid == k) = some it →
      completedUsage mii (updateItemFlag rows k b) iid =
        completedUsage mii rows iid
          - (if it.is_complete then recipeUsage mii iid it else 0)
          + (if b then recipeUsage mii iid it else 0) := by
  intro rows
  induction rows with
  | nil => intro _ hf; exact absurd hf (by simp)
  | cons r rs ih =>
    intro hnd hf
    rw [List.map_cons, List.nodup_cons] at hnd
    by_cases hr : (r.orderitemid == k) = true
    · rw [List.find?_cons_of_pos (p := fun x : OrderItemRow => x.orderitemid == k) rs hr,
        Option.some_inj] at hf
      subst hf
      have habsent : ∀ x ∈ rs, ¬ (x.orderitemid == k) = true := by
        intro x hx hxk
        apply hnd.1
        rw [beq_iff_eq] at hr hxk
        rw [hr, ← hxk]
        exact List.mem_map_of_mem OrderItemRow.orderitemid hx
      have hstep : updateItemFlag (r :: rs) k b =
          { r with is_complete := b } :: updateItemFlag rs k b := by
        unfold updateItemFlag
        rw [List.map_cons, if_pos hr]
      rw [hstep, updateItemFlag_id_of_absent k b rs habsent,
        completedUsage_cons, completedUsage_cons, recipeUsage_flag]
      by_cases hw : r.is_complete = true <;> by_cases hb : b = true <;>
        simp only [hw, hb, if_pos, if_neg, if_true, if_false] <;> omega
    · rw [List.find?_cons_of_neg (p := fun x : OrderItemRow => x.orderitemid == k) rs hr] at hf
      have hstep : updateItemFlag (r :: rs) k b =
          r :: updateItemFlag rs k b := by
        unfold updateItemFlag
        rw [List.map_cons, if_neg hr]
      rw [hstep, completedUsage_cons, completedUsage_cons, ih hnd.2 hf]
      omega

lemma stripFlag_updateItemFlag (rows : List OrderItemRow) (k : Nat) (b : Bool) :
    (updateItemFlag rows k b).map stripFlag = rows.map stripFlag := by
  unfold updateItemFlag
  rw [List.map_map]
  apply List.map_congr_left
  intro r _
  simp only [Function.comp_apply]
  by_cases hr : (r.orderitemid == k) = true
  · rw [if_pos hr]
    rfl
  · rw [if_neg hr]

lemma tracks_step (db0 db : DB) (hnd : itemIdsNodup db0)
    (ht : tracks db0 db) (k : Nat) (c : Option Bool) :
    tracks db0 (applyMark db (k, c)) := by
  obtain ⟨hmii, hshape, hinv⟩ := ht
  have hproj : ∀ l : List OrderItemRow,
      l.map OrderItemRow.orderitemid =
        (l.map stripFlag).map OrderItemRow.orderitemid := by
    intro l
    rw [List.map_map]
    apply List.map_congr_left
    intro r _
    rfl
  have hids : db.orderitems.map OrderItemRow.orderitemid =
      db0.orderitems.map OrderItemRow.orderitemid := by
    rw [hproj db.orderitems, hshape, ← hproj db0.orderitems]
  have hnd2 : (db.orderitems.map OrderItemRow.orderitemid).Nodup := by
    rw [hids]
    exact hnd
  cases hfind : findOrderItem db k with
  | none =>
    have hsame : applyMark db (k, c) = db := by
      simp [applyMark, markOrderItemComplete, hfind]
    rw [hsame]
    exact ⟨hmii, hshape, hinv⟩
  | some it =>
    have hfind2 : db.orderitems.find? (fun r => r.orderitemid == k) = some it :=
      hfind
    have husage : ∀ iid : Nat,
        completedUsage db0.menuItemIngredients
            (updateItemFlag db.orderitems k (willBeOf c)) iid =
          completedUsage db0.menuItemIngredients db.orderitems iid
            - (if it.is_complete then
                recipeUsage db0.menuItemIngredients iid it else 0)
            + (if willBeOf c then
                recipeUsage db0.menuItemIngredients iid it else 0) :=
      fun iid => completedUsage_updateItemFlag db0.menuItemIngredients k
        (willBeOf c) iid it db.orderitems hnd2 hfind2
    have hmrows : menuIngredients db it.menuitemid =
        db0.menuItemIngredients.filter fun r => r.menuItemID == it.menuitemid := by
      unfold menuIngredients
      rw [hmii]
    have hu : ∀ iid : Nat,
        ((((db0.menuItemIngredients.filter
              fun r => r.menuItemID == it.menuitemid).filter
              fun r => r.ingredientID == iid).map
            fun r => r.ingredientQty * it.quantity)).sum =
          recipeUsage db0.menuItemIngredients iid it := fun _ => rfl
    have hmii2 : (applyMark db (k, c)).menuItemIngredients =
        db0.menuItemIngredients := by
      simp [applyMark, markOrderItemComplete, hfind]
      exact hmii
    have hitems : (applyMark db (k, c)).orderitems =
        updateItemFlag db.orderitems k (willBeOf c) := by
      simp [applyMark, markOrderItemComplete, hfind]
    refine ⟨hmii2, ?_, ?_⟩
    · rw [hitems, stripFlag_updateItemFlag]
      exact hshape
    · rw [hitems]
      cases hb : willBeOf c <;> cases hw : it.is_complete <;>
        simp only [hb, hw] at husage <;>
        simp at husage
      · -- b = false, w = false : no transition
        have hinv2 : (applyMark db (k, c)).inventory = db.inventory := by
          simp [applyMark, markOrderItemComplete, hfind, hb, hw]
        rw [hinv2, hinv]
        apply List.map_congr_left
        intro i _
        simp only [InventoryRow.mk.injEq]
        refine ⟨trivial, ?_⟩
        have h1 := husage i.ingredientID
        omega
      · -- b = false, w = true : credit
        have hinv2 : (applyMark db (k, c)).inventory =
            creditIngredients db.inventory
              (menuIngredients db it.menuitemid) it.quantity := by
          simp [applyMark, markOrderItemComplete, hfind, hb, hw]
        rw [hinv2, hmrows, hinv, creditIngredients_eq_map, List.map_map]
        apply List.map_congr_left
        intro i _
        simp only [Function.comp_apply, InventoryRow.mk.injEq]
        refine ⟨trivial, ?_⟩
        have h1 := husage i.ingredientID
        have h2 := hu i.ingredientID
        omega
      · -- b = true, w = false : debit
        have hinv2 : (applyMark db (k, c)).inventory =
            debitIngredients db.inventory
              (menuIngredients db it.menuitemid) it.quantity := by
          simp [applyMark, markOrderItemComplete, hfind, hb, hw]
        rw [hinv2, hmrows, hinv, debitIngredients_eq_map, List.map_map]
        apply List.map_congr_left
        intro i _
        simp only [Function.comp_apply, InventoryRow.mk.injEq]
        refine ⟨trivial, ?_⟩
        have h1 := husage i.ingredientID
        have h2 := hu i.ingredientID
        omega
      · -- b = true, w = true : no transition
        have hinv2 : (applyMark db (k, c)).inventory = db.inventory := by
          simp [applyMark, markOrderItemComplete, hfind, hb, hw]
        rw [hinv2, hinv]
        apply List.map_congr_left
        intro i _
        simp only [InventoryRow.mk.injEq]
        refine ⟨trivial, ?_⟩
        have h1 := husage i.ingredientID
        omega

lemma tracks_refl (db0 : DB)
    (hinc : ∀ it ∈ db0.orderitems, it.is_complete = false) :
    tracks db0 db0 := by
  refine ⟨rfl, rfl, ?_⟩
  have hzero : ∀ iid : Nat,
      completedUsage db0.menuItemIngredients db0.orderitems iid = 0 := by
    intro iid
    unfold completedUsage
    have hnilf : db0.orderitems.filter (fun r => r.is_complete) = [] := by
      rw [List.filter_eq_nil_iff]
      intro a ha
      simp [hinc a ha]
    rw [hnilf]
    rfl
  symm
  have hpt : ∀ i ∈ db0.inventory,
      ({ i with ingredientCount := i.ingredientCount -
          completedUsage db0.menuItemIngredients db0.orderitems i.ingredientID }
        : InventoryRow) = id i := by
    intro i _
    simp [hzero]
  rw [List.map_congr_left hpt, List.map_id]

lemma tracks_applyMarks_aux (db0 : DB) (hnd : itemIdsNodup db0) :
    ∀ (ops : List (Nat × Option Bool)) (db : DB), tracks db0 db →
      tracks db0 (applyMarks db ops) := by
  intro ops
  induction ops with
  | nil => intro db ht; exact ht
  | cons op ops ih =>
    intro db ht
    exact ih (applyMark db op) (tracks_step db0 db hnd ht op.1 op.2)

lemma tracks_applyMarks (db0 : DB) (hnd : itemIdsNodup db0)
    (hinc : ∀ it ∈ db0.orderitems, it.is_complete = false)
    (ops : List (Nat × Option Bool)) :
    tracks db0 (applyMarks db0 ops) :=
  tracks_applyMarks_aux db0 hnd ops db0 (tracks_refl db0 hinc)

lemma updateItemFlag_all_false (rows : List OrderItemRow) (k : Nat)
    (h : ∀ r ∈ rows, ¬ (r.orderitemid == k) = true → r.is_complete = false) :
    ∀ r ∈ updateItemFlag rows k false, r.is_complete = false := by
  intro r hr
  unfold updateItemFlag at hr
  obtain ⟨s, hs, hmap⟩ := List.mem_map.mp hr
  by_cases hk : (s.orderitemid == k) = true
  · rw [if_pos hk] at hmap
    rw [← hmap]
  · rw [if_neg hk] at hmap
    rw [← hmap]
    exact h s hs hk

lemma updateItemFlag_true_other_flags (rows : List OrderItemRow) (k : Nat)
    (hinc : ∀ r ∈ rows, r.is_complete = false) :
    ∀ r ∈ updateItemFlag rows k true,
      ¬ (r.orderitemid == k) = true → r.is_complete = false := by
  intro r hr hrk
  unfold updateItemFlag at hr
  obtain ⟨s, hs, hmap⟩ := List.mem_map.mp hr
  by_cases hk : (s.orderitemid == k) = true
  · rw [if_pos hk] at hmap
    exfalso
    apply hrk
    rw [← hmap]
    exact hk
  · rw [if_neg hk] at hmap
    rw [← hmap]
    exact hinc s hs

lemma completedUsage_zero_of_all_incomplete (mii : List MenuItemIngredientRow)
    (items : List OrderItemRow) (iid : Nat)
    (h : ∀ r ∈ items, r.is_complete = false) :
    completedUsage mii items iid = 0 := by
  unfold completedUsage
  have hnilf : items.filter (fun r => r.is_complete) = [] := by
    rw [List.filter_eq_nil_iff]
    intro a ha
    simp [h a ha]
  rw [hnilf]
  rfl

/-- C2: starting from a committed state with no completed lines and
unique line identifiers, after any sequence of completion calls every
inventory row equals its initial value minus the summed requirement of
the currently-completed lines; consequently completing a line and then
un-completing it restores every ingredient count exactly. -/
theorem c2_inventory_reflects_completed_lines (db : DB)
    (hnd : itemIdsNodup db)
    (hinc : ∀ it ∈ db.orderitems, it.is_complete = false) :
    (∀ ops : List (Nat × Option Bool),
      (applyMarks db ops).inventory =
        db.inventory.map fun i =>
          { i with ingredientCount := (i.ingredientCount -
              completedUsage db.menuItemIngredients
                (applyMarks db ops).orderitems i.ingredientID) }) ∧
    ∀ k : Nat,
      (applyMarks db [(k, some true), (k, some false)]).inventory =
        db.inventory := by
  have hmain : ∀ ops : List (Nat × Option Bool),
      (applyMarks db ops).inventory =
        db.inventory.map fun i =>
          { i with ingredientCount := (i.ingredientCount -
              completedUsage db.menuItemIngredients
                (applyMarks db ops).orderitems i.ingredientID) } :=
    fun ops => (tracks_applyMarks db hnd hinc ops).2.2
  refine ⟨hmain, ?_⟩
  intro k
  have hflags : ∀ r ∈ (applyMarks db [(k, some true), (k, some false)]).orderitems,
      r.is_complete = false := by
    have hsplit : applyMarks db [(k, some true), (k, some false)] =
        applyMark (applyMark db (k, some true)) (k, some false) := rfl
    rw [hsplit]
    cases hfind : findOrderItem db k with
    | none =>
      have h1 : applyMark db (k, some true) = db := by
        simp [applyMark, markOrderItemComplete, hfind]
      rw [h1]
      have h2 : applyMark db (k, some false) = db := by
        simp [applyMark, markOrderItemComplete, hfind]
      rw [h2]
      exact hinc
    | some it =>
      have hwb1 : willBeOf (some true) = true := rfl
      have hwb2 : willBeOf (some false) = false := rfl
      set db1 := applyMark db (k, some true) with hdb1
      have h1 : db1.orderitems = updateItemFlag db.orderitems k true := by
        rw [hdb1]
        simp [applyMark, markOrderItemComplete, hfind, hwb1]
      have hfind1 : findOrderItem db1 k = some { it with is_complete := true } :=
        findOrderItem_after_mark db k (some true) it hfind
      have h2 : (applyMark db1 (k, some false)).orderitems =
          updateItemFlag db1.orderitems k false := by
        simp [applyMark, markOrderItemComplete, hfind1, hwb2]
      rw [h2, h1]
      exact updateItemFlag_all_false (updateItemFlag db.orderitems k true) k
        (updateItemFlag_true_other_flags db.orderitems k hinc)
  rw [hmain [(k, some true), (k, some false)]]
  have hpt : ∀ i ∈ db.inventory,
      ({ i with ingredientCount := (i.ingredientCount -
          completedUsage db.menuItemIngredients
            (applyMarks db [(k, some true), (k, some false)]).orderitems
            i.ingredientID) } : InventoryRow) = id i := by
    intro i _
    simp [completedUsage_zero_of_all_incomplete _ _ _ hflags]
  rw [List.map_congr_left hpt, List.map_id]

/-- C2 (witness): the two-line order. -/
theorem c2_inventory_reflects_completed_lines_witness :
    itemIdsNodup exDbTwoLines ∧
    (∀ it ∈ exDbTwoLines.orderitems, it.is_complete = false) ∧
    ((applyMarks exDbTwoLines [(1, some true)]).inventory =
      exDbTwoLines.inventory.map fun i =>
        { i with ingredientCount := (i.ingredientCount -
            completedUsage exDbTwoLines.menuItemIngredients
              (applyMarks exDbTwoLines [(1, some true)]).orderitems
              i.ingredientID) }) ∧
    (applyMarks exDbTwoLines [(1, some true), (1, some false)]).inventory =
      exDbTwoLines.inventory :=
  ⟨by unfold itemIdsNodup; decide, by decide,
   (c2_inventory_reflects_completed_lines exDbTwoLines
      (by unfold itemIdsNodup; decide) (by decide)).1 [(1, some true)],
   (c2_inventory_reflects_completed_lines exDbTwoLines
      (by unfold itemIdsNodup; decide) (by decide)).2 1⟩

lemma le_foldr_max (a : Nat) : ∀ l : List Nat, a ∈ l → a ≤ l.foldr max 0 := by
  intro l
  induction l with
  | nil => intro h; exact absurd h (List.not_mem_nil a)
  | cons x xs ih =>
    intro h
    rcases List.mem_cons.mp h with rfl | h2
    · exact Nat.le_max_left _ _
    · exact Nat.le_trans (ih h2) (Nat.le_max_right _ _)

lemma orderid_le_maxOrderId (orders : List OrderRow) (o : OrderRow)
    (h : o ∈ orders) : o.orderid ≤ maxOrderId orders :=
  le_foldr_max o.orderid _ (List.mem_map_of_mem OrderRow.orderid h)

lemma orderitemid_le_maxOrderItemId (rows : List OrderItemRow)
    (r : OrderItemRow) (h : r ∈ rows) :
    r.orderitemid ≤ maxOrderItemId rows :=
  le_foldr_max r.orderitemid _ (List.mem_map_of_mem OrderItemRow.orderitemid h)

lemma mem_insertOrderItems_of_mem (orderId : Nat) (r : OrderItemRow) :
    ∀ (items : List OrderItemReq) (rows : List OrderItemRow), r ∈ rows →
      r ∈ insertOrderItems orderId items rows := by
  intro items
  induction items with
  | nil => intro rows h; exact h
  | cons a as ih =>
    intro rows h
    have hstep : insertOrderItems orderId (a :: as) rows =
        insertOrderItems orderId as
          (rows ++ [⟨maxOrderItemId rows + 1, orderId, a.menuitemid,
            a.quantity, false⟩]) := rfl
    rw [hstep]
    exact ih _ (List.mem_append_left _ h)

lemma insertOrderItems_nodup (orderId : Nat) :
    ∀ (items : List OrderItemReq) (rows : List OrderItemRow),
      (rows.map OrderItemRow.orderitemid).Nodup →
      ((insertOrderItems orderId items rows).map
        OrderItemRow.orderitemid).Nodup := by
  intro items
  induction items with
  | nil => intro rows h; exact h
  | cons a as ih =>
    intro rows h
    have hstep : insertOrderItems orderId (a :: as) rows =
        insertOrderItems orderId as
          (rows ++ [⟨maxOrderItemId rows + 1, orderId, a.menuitemid,
            a.quantity, false⟩]) := rfl
    rw [hstep]
    apply ih
    rw [List.map_append]
    rw [List.nodup_append]
    refine ⟨h, List.nodup_singleton _, ?_⟩
    intro x hx hx2
    rw [List.map_singleton, List.mem_singleton] at hx2
    subst hx2
    obtain ⟨r, hr, hrid⟩ := List.mem_map.mp hx
    have hle := orderitemid_le_maxOrderItemId rows r hr
    have hnew : (⟨maxOrderItemId rows + 1, orderId, a.menuitemid,
        a.quantity, false⟩ : OrderItemRow).orderitemid =
        maxOrderItemId rows + 1 := rfl
    omega

lemma orderLines_insertOrderItems_ne (orderId : Nat) (x : Nat)
    (hx : x ≠ orderId) :
    ∀ (items : List OrderItemReq) (rows : List OrderItemRow),
      orderLines (insertOrderItems orderId items rows) x =
        orderLines rows x := by
  intro items
  induction items with
  | nil => intro rows; rfl
  | cons a as ih =>
    intro rows
    have hstep : insertOrderItems orderId (a :: as) rows =
        insertOrderItems orderId as
          (rows ++ [⟨maxOrderItemId rows + 1, orderId, a.menuitemid,
            a.quantity, false⟩]) := rfl
    rw [hstep, ih]
    unfold orderLines
    rw [List.filter_append]
    have hnil : ([⟨maxOrderItemId rows + 1, orderId, a.menuitemid,
        a.quantity, false⟩] : List OrderItemRow).filter
          (fun r => r.orderid == x) = [] := by
      rw [List.filter_eq_nil_iff]
      intro b hb
      rw [List.mem_singleton] at hb
      subst hb
      simp only [beq_iff_eq]
      omega
    rw [hnil, List.append_nil]

lemma completed_eq_total_iff_all (lines : List OrderItemRow)
    (hne : lines ≠ []) :
    ((lines.filter fun r => r.is_complete).length == lines.length) =
      (!lines.isEmpty && lines.all fun r => r.is_complete) := by
  have h1 : lines.isEmpty = false := by
    cases lines with
    | nil => exact absurd rfl hne
    | cons a l => rfl
  rw [h1]
  simp only [Bool.not_false, Bool.true_and]
  cases hall : lines.all fun r => r.is_complete with
  | true =>
    have h2 : ∀ r ∈ lines, r.is_complete = true := by
      intro r hr
      exact List.all_eq_true.mp hall r hr
    rw [List.filter_length_eq_length.mpr h2]
    exact beq_self_eq_true _
  | false =>
    have h2 : ¬ ∀ r ∈ lines, r.is_complete = true := by
      intro hforall
      rw [List.all_eq_true.mpr hforall] at hall
      exact Bool.noConfusion hall
    have h3 : (lines.filter fun r => r.is_complete).length ≠ lines.length :=
      fun heq => h2 (List.filter_length_eq_length.mp heq)
    exact beq_eq_false_iff_ne.mpr h3

lemma recomputeOrderFlag_eq (rows : List OrderItemRow)
    (orders : List OrderRow) (orderId : Nat) :
    recomputeOrderFlag rows orders orderId =
      orders.map fun o =>
        if o.orderid == orderId then
          { o with is_complete :=
              (((orderLines rows orderId).filter fun r =>
                  r.is_complete).length ==
                (orderLines rows orderId).length) }
        else o := rfl

lemma orderLines_updateItemFlag (rows : List OrderItemRow) (k : Nat)
    (b : Bool) (x : Nat) :
    orderLines (updateItemFlag rows k b) x =
      (orderLines rows x).map fun r =>
        if r.orderitemid == k then { r with is_complete := b } else r := by
  unfold orderLines updateItemFlag
  rw [List.filter_map]
  congr 1
  apply List.filter_congr
  intro r _
  simp only [Function.comp_apply]
  by_cases hr : (r.orderitemid == k) = true
  · rw [if_pos hr]
  · rw [if_neg hr]

lemma wellFormed_markOrderItemComplete (db : DB) (hwf : wellFormed db)
    (k : Nat) (c : Option Bool) :
    wellFormed (applyMark db (k, c)) := by
  obtain ⟨hnd, href, hflag⟩ := hwf
  cases hfind : findOrderItem db k with
  | none =>
    have hsame : applyMark db (k, c) = db := by
      simp [applyMark, markOrderItemComplete, hfind]
    rw [hsame]
    exact ⟨hnd, href, hflag⟩
  | some it =>
    have hitems : (applyMark db (k, c)).orderitems =
        updateItemFlag db.orderitems k (willBeOf c) := by
      simp [applyMark, markOrderItemComplete, hfind]
    have horders : (applyMark db (k, c)).orders =
        recomputeOrderFlag (updateItemFlag db.orderitems k (willBeOf c))
          db.orders it.orderid := by
      simp [applyMark, markOrderItemComplete, hfind]
    have hmemit : it ∈ db.orderitems := List.mem_of_find?_eq_some hfind
    have hitk : (it.orderitemid == k) = true :=
      List.find?_some (p := fun r : OrderItemRow => r.orderitemid == k) hfind
    refine ⟨?_, ?_, ?_⟩
    · unfold itemIdsNodup
      rw [hitems]
      unfold updateItemFlag
      rw [List.map_map]
      have hcomp : (OrderItemRow.orderitemid ∘ fun r : OrderItemRow =>
          if r.orderitemid == k then { r with is_complete := willBeOf c }
          else r) = OrderItemRow.orderitemid := by
        funext r
        simp only [Function.comp_apply]
        by_cases hr : (r.orderitemid == k) = true
        · rw [if_pos hr]
        · rw [if_neg hr]
      rw [hcomp]
      exact hnd
    · unfold itemsReferenceOrders
      rw [hitems, horders, recomputeOrderFlag_eq]
      intro r hr
      obtain ⟨s, hs, hmap⟩ := List.mem_map.mp hr
      obtain ⟨o, ho, hoid⟩ := href s hs
      refine ⟨_, List.mem_map_of_mem _ ho, ?_⟩
      have hsoid : r.orderid = s.orderid := by
        rw [← hmap]
        by_cases hsk : (s.orderitemid == k) = true
        · rw [if_pos hsk]
        · rw [if_neg hsk]
      rw [hsoid, ← hoid]
      by_cases hok : (o.orderid == it.orderid) = true
      · rw [if_pos hok]
      · rw [if_neg hok]
    · unfold orderFlagDerived
      rw [hitems, horders, recomputeOrderFlag_eq]
      intro o2 ho2
      obtain ⟨o, ho, hmap⟩ := List.mem_map.mp ho2
      by_cases hoid : (o.orderid == it.orderid) = true
      · rw [if_pos hoid] at hmap
        subst hmap
        have hmem2 : ({ it with is_complete := willBeOf c } : OrderItemRow) ∈
            updateItemFlag db.orderitems k (willBeOf c) := by
          unfold updateItemFlag
          rw [List.mem_map]
          refine ⟨it, hmemit, ?_⟩
          show (if it.orderitemid == k then
            ({ it with is_complete := willBeOf c } : OrderItemRow) else it) =
            { it with is_complete := willBeOf c }
          rw [if_pos hitk]
        have hmem3 : ({ it with is_complete := willBeOf c } : OrderItemRow) ∈
            orderLines (updateItemFlag db.orderitems k (willBeOf c))
              it.orderid := by
          unfold orderLines
          rw [List.mem_filter]
          exact ⟨hmem2, by simp⟩
        have hne : orderLines (updateItemFlag db.orderitems k (willBeOf c))
            it.orderid ≠ [] := List.ne_nil_of_mem hmem3
        have hct := completed_eq_total_iff_all _ hne
        have hooid : o.orderid = it.orderid := beq_iff_eq.mp hoid
        show (((orderLines (updateItemFlag db.orderitems k (willBeOf c))
            it.orderid).filter fun r => r.is_complete).length ==
            (orderLines (updateItemFlag db.orderitems k (willBeOf c))
              it.orderid).length) = _
        rw [hooid]
        exact hct
      · rw [if_neg hoid] at hmap
        subst hmap
        have hx : o.orderid ≠ it.orderid := by
          intro heq
          exact hoid (beq_iff_eq.mpr heq)
        have hlines : orderLines (updateItemFlag db.orderitems k (willBeOf c))
            o.orderid = orderLines db.orderitems o.orderid := by
          rw [orderLines_updateItemFlag]
          have hpt : ∀ r ∈ orderLines db.orderitems o.orderid,
              (if r.orderitemid == k then
                { r with is_complete := willBeOf c } else r) = id r := by
            intro r hr
            have hrmem : r ∈ db.orderitems := by
              unfold orderLines at hr
              exact (List.mem_filter.mp hr).1
            have hroid : (r.orderid == o.orderid) = true := by
              unfold orderLines at hr
              exact (List.mem_filter.mp hr).2
            by_cases hrk : (r.orderitemid == k) = true
            · exfalso
              have hreq : r = it := by
                apply List.inj_on_of_nodup_map hnd hrmem hmemit
                rw [beq_iff_eq] at hrk hitk
                rw [hrk, hitk]
              apply hx
              rw [← beq_iff_eq.mp hroid, hreq]
            · rw [if_neg hrk]
              rfl
          rw [List.map_congr_left hpt, List.map_id]
        rw [hlines]
        exact hflag o ho

lemma wellFormed_createOrder (db : DB) (hwf : wellFormed db)
    (req : CreateOrderReq) (db2 : DB) (o : OrderRow)
    (h : createOrder db req = (db2, Except.ok o)) :
    wellFormed db2 := by
  obtain ⟨hnd, href, hflag⟩ := hwf
  cases hoi : req.orderItems with
  | none => simp [createOrder, hoi] at h
  | some items =>
    cases he : items.isEmpty with
    | true => simp [createOrder, hoi, he] at h
    | false =>
      cases hfi : firstInsufficiency db items with
      | some i => simp [createOrder, hoi, he, hfi] at h
      | none =>
        simp only [createOrder, hoi, he, hfi, Bool.false_eq_true, if_false,
          Prod.mk.injEq, Except.ok.injEq] at h
        obtain ⟨hdb, ho⟩ := h
        subst hdb
        cases items with
        | nil => exact absurd he (by simp)
        | cons a as =>
        refine ⟨?_, ?_, ?_⟩
        · exact insertOrderItems_nodup (maxOrderId db.orders + 1) (a :: as)
            db.orderitems hnd
        · intro r hr
          rcases mem_insertOrderItems (maxOrderId db.orders + 1) (a :: as)
              db.orderitems r hr with hold | hnew
          · obtain ⟨o2, ho2, hoid2⟩ := href r hold
            exact ⟨o2, List.mem_append_left _ ho2, hoid2⟩
          · refine ⟨_, List.mem_append_right _ (List.mem_singleton_self _), ?_⟩
            rw [hnew.1]
        · intro o2 ho2
          rcases List.mem_append.mp ho2 with hold | hnew
          · have hlt : o2.orderid ≠ maxOrderId db.orders + 1 := by
              have := orderid_le_maxOrderId db.orders o2 hold
              omega
            rw [orderLines_insertOrderItems_ne (maxOrderId db.orders + 1)
              o2.orderid hlt (a :: as) db.orderitems]
            exact hflag o2 hold
          · rw [List.mem_singleton] at hnew
            subst hnew
            have hrow : (⟨maxOrderItemId db.orderitems + 1,
                maxOrderId db.orders + 1, a.menuitemid, a.quantity, false⟩ :
                  OrderItemRow) ∈
                insertOrderItems (maxOrderId db.orders + 1) (a :: as)
                  db.orderitems := by
              have hstep : insertOrderItems (maxOrderId db.orders + 1)
                  (a :: as) db.orderitems =
                  insertOrderItems (maxOrderId db.orders + 1) as
                    (db.orderitems ++ [⟨maxOrderItemId db.orderitems + 1,
                      maxOrderId db.orders + 1, a.menuitemid, a.quantity,
                      false⟩]) := rfl
              rw [hstep]
              exact mem_insertOrderItems_of_mem _ _ as _
                (List.mem_append_right _ (List.mem_singleton_self _))
            have hline : (⟨maxOrderItemId db.orderitems + 1,
                maxOrderId db.orders + 1, a.menuitemid, a.quantity, false⟩ :
                  OrderItemRow) ∈
                orderLines (insertOrderItems (maxOrderId db.orders + 1)
                  (a :: as) db.orderitems) (maxOrderId db.orders + 1) := by
              unfold orderLines
              rw [List.mem_filter]
              exact ⟨hrow, by simp⟩
            have hallf : (orderLines (insertOrderItems
                (maxOrderId db.orders + 1) (a :: as) db.orderitems)
                  (maxOrderId db.orders + 1)).all
                (fun r => r.is_complete) = false := by
              rw [List.all_eq_false]
              exact ⟨_, hline, by simp⟩
            show false = _
            rw [hallf, Bool.and_false]

/-- C3: starting from a well-formed state (unique line ids, lines
referencing existing orders, derived aggregate flags), every committed
transaction — order creation or item completion — leaves every order's
aggregate flag true iff the order has at least one line and all of its
lines are complete. -/
theorem c3_aggregate_flag_derived (db : DB) (hwf : wellFormed db) :
    (∀ (req : CreateOrderReq) (db2 : DB) (o : OrderRow),
      createOrder db req = (db2, Except.ok o) → wellFormed db2) ∧
    (∀ (k : Nat) (c : Option Bool), wellFormed (applyMark db (k, c))) :=
  ⟨fun req db2 o h => wellFormed_createOrder db hwf req db2 o h,
   fun k c => wellFormed_markOrderItemComplete db hwf k c⟩

/-- C3 (witness): Scenario C — a 2-line order; completing line 1 only
leaves the aggregate flag false, completing line 2 as well sets it. -/
theorem c3_aggregate_flag_derived_witness :
    wellFormed exDbTwoLines ∧
    wellFormed (applyMark exDbTwoLines (1, some true)) ∧
    (applyMark exDbTwoLines (1, some true)).orders =
      [⟨1, some 0, none, 9, 12, 40, false⟩] ∧
    (applyMark (applyMark exDbTwoLines (1, some true)) (2, some true)).orders =
      [⟨1, some 0, none, 9, 12, 40, true⟩] :=
  ⟨by unfold wellFormed itemIdsNodup itemsReferenceOrders orderFlagDerived
      refine ⟨by decide, by decide, by decide⟩,
   (c3_aggregate_flag_derived exDbTwoLines
      (by unfold wellFormed itemIdsNodup itemsReferenceOrders orderFlagDerived
          refine ⟨by decide, by decide, by decide⟩)).2 1 (some true),
   rfl, rfl⟩

lemma allocReach_closed :
    ∀ s ∈ allocReach 10, ∀ t ∈ allocStep s, t ∈ allocReach 10 := by
  decide

lemma allocReaches_mem_allocReach (s : AllocSystem) (hs : AllocReaches s) :
    s ∈ allocReach 10 := by
  induction hs with
  | init => decide
  | step hs hmem ih => exact allocReach_closed _ ih _ hmem

lemma allocReach_terminal_safe :
    ∀ s ∈ allocReach 10, s.thA.pc = AllocPC.done → s.thB.pc = AllocPC.done →
      ((s.thA.id = 1 ∧ s.thB.id = 2) ∨ (s.thA.id = 2 ∧ s.thB.id = 1)) ∧
        s.committed = [1, 2] := by
  decide

/-- C9: under the interleaving semantics of the advisory-lock-guarded
`MAX + 1` allocation, two concurrent order creations against an empty
orders table always finish with the distinct identifiers 1 and 2 (never
both 1), the second strictly greater than the first committed one; and
the order-id and order-item-id allocators use distinct lock keys, so
they never block each other. -/
theorem c9_nextId_distinct_under_concurrency :
    (∀ s : AllocSystem, AllocReaches s → s.thA.pc = AllocPC.done →
      s.thB.pc = AllocPC.done →
      ((s.thA.id = 1 ∧ s.thB.id = 2) ∨ (s.thA.id = 2 ∧ s.thB.id = 1)) ∧
        s.committed = [1, 2]) ∧
    orderIdLockKey ≠ orderItemIdLockKey := by
  refine ⟨?_, by decide⟩
  intro s hs hA hB
  exact allocReach_terminal_safe s (allocReaches_mem_allocReach s hs) hA hB

/-- C9 (witness): the run in which transaction A allocates and commits
first, then B. -/
theorem c9_nextId_distinct_under_concurrency_witness :
    ((((⟨⟨.done, 1⟩, ⟨.done, 2⟩, none, [1, 2]⟩ : AllocSystem).thA.id = 1 ∧
        (⟨⟨.done, 1⟩, ⟨.done, 2⟩, none, [1, 2]⟩ : AllocSystem).thB.id = 2) ∨
      ((⟨⟨.done, 1⟩, ⟨.done, 2⟩, none, [1, 2]⟩ : AllocSystem).thA.id = 2 ∧
        (⟨⟨.done, 1⟩, ⟨.done, 2⟩, none, [1, 2]⟩ : AllocSystem).thB.id = 1)) ∧
      (⟨⟨.done, 1⟩, ⟨.done, 2⟩, none, [1, 2]⟩ : AllocSystem).committed =
        [1, 2]) ∧
    orderIdLockKey ≠ orderItemIdLockKey :=
  have h1 : AllocReaches ⟨⟨.locked, 0⟩, ⟨.ready, 0⟩, some .A, []⟩ :=
    .step .init (by decide)
  have h2 : AllocReaches ⟨⟨.computed, 1⟩, ⟨.ready, 0⟩, some .A, []⟩ :=
    .step h1 (by decide)
  have h3 : AllocReaches ⟨⟨.inserted, 1⟩, ⟨.ready, 0⟩, some .A, []⟩ :=
    .step h2 (by decide)
  have h4 : AllocReaches ⟨⟨.done, 1⟩, ⟨.ready, 0⟩, none, [1]⟩ :=
    .step h3 (by decide)
  have h5 : AllocReaches ⟨⟨.done, 1⟩, ⟨.locked, 0⟩, some .B, [1]⟩ :=
    .step h4 (by decide)
  have h6 : AllocReaches ⟨⟨.done, 1⟩, ⟨.computed, 2⟩, some .B, [1]⟩ :=
    .step h5 (by decide)
  have h7 : AllocReaches ⟨⟨.done, 1⟩, ⟨.inserted, 2⟩, some .B, [1]⟩ :=
    .step h6 (by decide)
  have h8 : AllocReaches ⟨⟨.done, 1⟩, ⟨.done, 2⟩, none, [1, 2]⟩ :=
    .step h7 (by decide)
  ⟨c9_nextId_distinct_under_concurrency.1 _ h8 rfl rfl,
   c9_nextId_distinct_under_concurrency.2⟩
